import Mathlib

/-!
Verification of the creometrics uniquification engine
(`src/workers/uniquification/photo_uniquifier.py`,
`src/workers/uniquification/video_uniquifier.py`,
`src/workers/uniquification/methods.py`).

The Python code is shallowly embedded: dictionaries of effect parameters
become association lists in insertion order (the `name` and `enabled` keys,
which both samplers skip explicitly, are kept as separate record fields);
Python's global `random` module becomes an explicit `RNG` state threaded
through every definition, with `random.seed` resetting that state; Python
floats are modelled as rationals; code that can raise returns `Except`.
Images, the effect registry and the overlay stage are type parameters:
claims about the pipeline hold for every registry, and witnesses
instantiate them with a trace registry recording applied effect names.
-/

/-- A Python numeric scalar: either an `int` or a `float` (modelled as `ℚ`). -/
inductive PyNum where
  | int : ℤ → PyNum
  | float : ℚ → PyNum
deriving DecidableEq, Repr

/-- A parameter value of an effect spec: a numeric scalar or a two-element
list `[min, max]` (the only list shape the samplers treat as a range). -/
inductive ParamValue where
  | num : PyNum → ParamValue
  | range2 : PyNum → PyNum → ParamValue
deriving DecidableEq, Repr

/-- One effect spec from a preset's `methods` list: the `name` and `enabled`
keys plus the remaining parameter items in dict insertion order. -/
structure MethodConfig where
  name : String
  enabled : Bool
  params : List (String × ParamValue)
deriving DecidableEq, Repr

/-- State of Python's global `random` module, abstracted to a single
natural-number word. -/
structure RNG where
  state : ℕ
deriving DecidableEq, Repr

/-- One draw from the generator: a linear-congruential step producing a
31-bit word.  The claims depend only on draws being a deterministic
function of the state, not on the concrete generator. -/
def rngNext (g : RNG) : ℕ × RNG :=
  let s := (g.state * 1103515245 + 12345) % 2147483648
  (s, ⟨s⟩)

/-- `random.seed(n)`: deterministically reset the generator state from an
integer seed. -/
def pySeed (n : ℤ) : RNG :=
  ⟨(n % 2147483648).toNat⟩

/-- `random.random()`: one draw mapped into `[0, 1)`. -/
def pyRandom (g : RNG) : ℚ × RNG :=
  let (d, g') := rngNext g
  ((d : ℚ) / 2147483648, g')

/-- `random.randint(a, b)`: uniform over the inclusive range `[a, b]`;
raises `ValueError` when the range is empty (`a > b`). -/
def pyRandint (a b : ℤ) (g : RNG) : Except String (ℤ × RNG) :=
  if a ≤ b then
    let (d, g') := rngNext g
    .ok (a + (d : ℤ) % (b - a + 1), g')
  else
    .error "empty range"

/-- `random.uniform(a, b) = a + (b-a)*random()`; never raises. -/
def pyUniform (a b : ℚ) (g : RNG) : ℚ × RNG :=
  let (u, g') := pyRandom g
  (a + (b - a) * u, g')

/-- Python's `float(x)` on a numeric value. -/
def pyFloatOf : PyNum → ℚ
  | .int n => (n : ℚ)
  | .float x => x

/-- Python's `int(q)` conversion: truncation toward zero. -/
def truncToward0 (q : ℚ) : ℤ :=
  if 0 ≤ q then ⌊q⌋ else ⌈q⌉

/-- `type(value)(value * multiplier)` from `_apply_intensity_multiplier`:
an `int` is multiplied then truncated back to `int`, a `float` is
multiplied exactly. -/
def scaleNum (mult : ℚ) : PyNum → PyNum
  | .int n => .int (truncToward0 ((n : ℚ) * mult))
  | .float x => .float (x * mult)

/-- Scaling of one parameter value: both endpoints of a two-element range,
or the scalar itself. -/
def scaleParamValue (mult : ℚ) : ParamValue → ParamValue
  | .num v => .num (scaleNum mult v)
  | .range2 a b => .range2 (scaleNum mult a) (scaleNum mult b)

/-- The intensity multiplier table of `_apply_intensity_multiplier`:
`{'low': 0.5, 'medium': 1.0, 'high': 1.3}` with `.get` default `1.5`. -/
def multiplierFor (intensity : String) : ℚ :=
  if intensity = "low" then 1/2
  else if intensity = "medium" then 1
  else if intensity = "high" then 13/10
  else 3/2

/-- `no_scale_methods = {'brightness', 'contrast', 'hue', 'blur'}`. -/
def noScaleMethods : List String :=
  ["brightness", "contrast", "hue", "blur"]

/-- The per-method body of `_apply_intensity_multiplier`: protected methods
pass through unchanged, every other method has each (numeric) parameter
scaled. -/
def scaleMethod (mult : ℚ) (m : MethodConfig) : MethodConfig :=
  if m.name ∈ noScaleMethods then m
  else { m with params := m.params.map fun kv => (kv.1, scaleParamValue mult kv.2) }

/-- `PhotoUniquifier._apply_intensity_multiplier`: runs once per uniquify
call, over the whole `methods` list (enabled or not). -/
def applyIntensityMultiplier (intensity : String) (methods : List MethodConfig) :
    List MethodConfig :=
  methods.map (scaleMethod (multiplierFor intensity))

/-- Sampling of one parameter value, the range-vs-scalar branch shared by
`PhotoUniquifier._prepare_parameters` and
`VideoUniquifier._prepare_transform_params`: a two-element all-`int` list
goes through `randint`, any other two-element list through
`uniform(float(v0), float(v1))`, everything else passes through. -/
def sampleParamValue : ParamValue → RNG → Except String (ParamValue × RNG)
  | .range2 (.int a) (.int b), g =>
      match pyRandint a b g with
      | .ok (n, g') => .ok (.num (.int n), g')
      | .error e => .error e
  | .range2 a b, g =>
      let (x, g') := pyUniform (pyFloatOf a) (pyFloatOf b) g
      .ok (.num (.float x), g')
  | v, g => .ok (v, g)

/-- The sampling loop over a method's parameter items, in dict insertion
order; a raising `randint` propagates and aborts the loop. -/
def samplePairs : List (String × ParamValue) → RNG →
    Except String (List (String × ParamValue) × RNG)
  | [], g => .ok ([], g)
  | kv :: rest, g =>
      match sampleParamValue kv.2 g with
      | .ok (v, g') =>
          match samplePairs rest g' with
          | .ok (out, g'') => .ok ((kv.1, v) :: out, g'')
          | .error e => .error e
      | .error e => .error e

/-- State of numpy's global generator (`np.random`): a separate generator
that `random.seed` does not touch and that nothing in the repository ever
seeds. -/
structure NpRNG where
  state : ℕ
deriving DecidableEq, Repr

/-- One draw from numpy's global generator, as a distinct
linear-congruential step; as with `rngNext`, only determinism as a
function of the state matters. -/
def npNext (g : NpRNG) : ℕ × NpRNG :=
  let s := (g.state * 1664525 + 1013904223) % 4294967296
  (s, ⟨s⟩)

/-- An entry of `METHOD_REGISTRY`: an effect function mapping an image and
concrete parameters to a new image, or raising.  The real effects draw
from the global `random` module (sparkle positions, flare anchors, ...)
and — in `add_noise`, whose per-pixel noise array comes from
`np.random.randint` (methods.py:23) — from numpy's global generator, so
both generator states are threaded in and out. -/
def EffectFn (Image : Type) : Type :=
  Image → List (String × ParamValue) → RNG → NpRNG →
    Except String (Image × RNG × NpRNG)

/-- The enabled-method loop of `PhotoUniquifier.uniquify`: disabled methods
and names missing from the registry are skipped; parameters are sampled
(a sampling error propagates to the per-copy handler); a raising effect
function is caught and the previous image state is kept (the generator
positions after a caught raise are abstracted as those from before the
effect ran; no claim observes them). -/
def applyMethods {Image : Type} (reg : String → Option (EffectFn Image)) :
    List MethodConfig → Image → RNG → NpRNG →
    Except String (Image × RNG × NpRNG)
  | [], img, g, np => .ok (img, g, np)
  | mc :: rest, img, g, np =>
      if mc.enabled then
        match reg mc.name with
        | none => applyMethods reg rest img g np
        | some f =>
            match samplePairs mc.params g with
            | .ok (ps, g') =>
                match f img ps g' np with
                | .ok (img', g'', np') => applyMethods reg rest img' g'' np'
                | .error _ => applyMethods reg rest img g' np
            | .error e => .error e
      else
        applyMethods reg rest img g np

/-- `ext_map = {'jpeg': '.jpg', 'png': '.png', 'webp': '.webp'}` with
`.get` default `'.jpg'`. -/
def extMap (fmt : String) : String :=
  if fmt = "jpeg" then ".jpg"
  else if fmt = "png" then ".png"
  else if fmt = "webp" then ".webp"
  else ".jpg"

/-- Whether the `if/elif` save chain of `uniquify` executes a save at all:
only the three recognised formats have a branch. -/
def saveAttempted (fmt : String) : Bool :=
  fmt = "jpeg" || fmt = "png" || fmt = "webp"

/-- One produced photo copy: its output file name, whether a file was
actually written by the save chain, and the final image data. -/
structure CopyOutput (Image : Type) where
  path : String
  written : Bool
  data : Image
deriving DecidableEq, Repr

/-- The body of one iteration of the photo copy loop (0-based index `i`):
seed the global generator from `i + hash(input_path.name)`, start from a
fresh copy of the original, flip, run the method pipeline, run the overlay
stage, build the output name from the input stem, then save.  `saveOk`
abstracts whether the underlying file write succeeds when attempted.  Any
raise inside is caught by the per-copy handler (the `Except` result). -/
def photoProcessCopy {Image : Type} (reg : String → Option (EffectFn Image))
    (methods : List MethodConfig) (fileFormat : String) (flipH : Bool)
    (mirror : Image → Image) (overlayStage : Image → Image) (saveOk : Bool)
    (orig : Image) (nameHash : ℤ) (stem : String) (i : ℕ) (_gIn : RNG)
    (npIn : NpRNG) : Except String (CopyOutput Image × RNG × NpRNG) :=
  let g0 := pySeed ((i : ℤ) + nameHash)
  let img0 := if flipH then mirror orig else orig
  match applyMethods reg methods img0 g0 npIn with
  | .error e => .error e
  | .ok (img1, g1, np1) =>
      let img2 := overlayStage img1
      let path := stem ++ "_unique_" ++ toString (i + 1) ++ extMap fileFormat
      if saveAttempted fileFormat then
        if saveOk then .ok (⟨path, true, img2⟩, g1, np1)
        else .error "save failed"
      else
        .ok (⟨path, false, img2⟩, g1, np1)

/-- The copy loop of `PhotoUniquifier.uniquify` from index `i`, `k` copies
remaining: a failed copy is logged and skipped, the loop continues. -/
def photoUniquifyFrom {Image : Type} (reg : String → Option (EffectFn Image))
    (methods : List MethodConfig) (fileFormat : String) (flipH : Bool)
    (mirror : Image → Image) (overlayStage : Image → Image) (saveOk : Bool)
    (orig : Image) (nameHash : ℤ) (stem : String) :
    ℕ → ℕ → RNG → NpRNG → List (CopyOutput Image) × RNG × NpRNG
  | _, 0, g, np => ([], g, np)
  | i, k + 1, g, np =>
      match photoProcessCopy reg methods fileFormat flipH mirror overlayStage
          saveOk orig nameHash stem i g np with
      | .ok (out, g', np') =>
          let r := photoUniquifyFrom reg methods fileFormat flipH mirror
            overlayStage saveOk orig nameHash stem (i + 1) k g' np'
          (out :: r.1, r.2)
      | .error _ =>
          photoUniquifyFrom reg methods fileFormat flipH mirror
            overlayStage saveOk orig nameHash stem (i + 1) k g np

/-- `PhotoUniquifier.uniquify` after the input image was decoded: generate
`count` copies, returning the outputs of the successful ones in order,
threading both global generator states. -/
def photoUniquify {Image : Type} (reg : String → Option (EffectFn Image))
    (methods : List MethodConfig) (fileFormat : String) (flipH : Bool)
    (mirror : Image → Image) (overlayStage : Image → Image) (saveOk : Bool)
    (orig : Image) (nameHash : ℤ) (stem : String) (count : ℕ) (g : RNG)
    (np : NpRNG) : List (CopyOutput Image) × RNG × NpRNG :=
  photoUniquifyFrom reg methods fileFormat flipH mirror overlayStage saveOk
    orig nameHash stem 0 count g np

/-- `VideoUniquifier._prepare_transform_params`: sample each enabled
method's parameters (same range-vs-scalar rule as the photo sampler) into
a name-keyed map.  No seeding happens anywhere in this path. -/
def videoTransformParams : List MethodConfig → RNG →
    Except String (List (String × List (String × ParamValue)) × RNG)
  | [], g => .ok ([], g)
  | mc :: rest, g =>
      if mc.enabled then
        match samplePairs mc.params g with
        | .ok (ps, g') =>
            match videoTransformParams rest g' with
            | .ok (out, g'') => .ok ((mc.name, ps) :: out, g'')
            | .error e => .error e
        | .error e => .error e
      else
        videoTransformParams rest g

/-- One produced video copy: output file name plus the sampled transform
parameters that determine the written bytes. -/
structure VideoOutput where
  path : String
  params : List (String × List (String × ParamValue))
deriving DecidableEq, Repr

/-- The body of one iteration of the video copy loop: build the output
name from the input stem and the input file's suffix, then sample the
transform parameters for this copy. -/
def videoProcessCopy (methods : List MethodConfig) (stem suffix : String)
    (i : ℕ) (g : RNG) : Except String (VideoOutput × RNG) :=
  let path := stem ++ "_unique_" ++ toString (i + 1) ++ suffix
  match videoTransformParams methods g with
  | .ok (tp, g') => .ok (⟨path, tp⟩, g')
  | .error e => .error e

/-- The copy loop of `VideoUniquifier.uniquify` from index `i`: a failed
copy is skipped and the loop continues (after a failure the model resumes
from the pre-copy generator state; no claim observes the post-error
state). -/
def videoUniquifyFrom (methods : List MethodConfig) (stem suffix : String) :
    ℕ → ℕ → RNG → List VideoOutput × RNG
  | _, 0, g => ([], g)
  | i, k + 1, g =>
      match videoProcessCopy methods stem suffix i g with
      | .ok (out, g') =>
          let (rest, g'') := videoUniquifyFrom methods stem suffix (i + 1) k g'
          (out :: rest, g'')
      | .error _ =>
          let (rest, g'') := videoUniquifyFrom methods stem suffix (i + 1) k g
          (rest, g'')

/-- `VideoUniquifier.uniquify`: generate `count` copies. -/
def videoUniquify (methods : List MethodConfig) (stem suffix : String)
    (count : ℕ) (g : RNG) : List VideoOutput × RNG :=
  videoUniquifyFrom methods stem suffix 0 count g

/-- Whether a sampled transform-parameter map contains a method name. -/
def hasKey (tp : List (String × List (String × ParamValue))) (k : String) : Bool :=
  tp.any fun kv => kv.1 = k

/-- The clip-level operations `_process_video` can chain. -/
inductive ClipOp where
  | speed | brightness | contrast | saturation | hue | frameEffects
deriving DecidableEq, Repr

/-- The chain of `if 'name' in transform_params` blocks in
`_process_video`, as the ordered trace of operations wrapped around the
clip (the four colour operations and the frame-effect callback are each
applied to every frame via `fl_image`). -/
def processVideoOps (tp : List (String × List (String × ParamValue))) :
    List ClipOp :=
  (if hasKey tp "speed" then [ClipOp.speed] else []) ++
  (if hasKey tp "brightness" then [ClipOp.brightness] else []) ++
  (if hasKey tp "contrast" then [ClipOp.contrast] else []) ++
  (if hasKey tp "saturation" then [ClipOp.saturation] else []) ++
  (if hasKey tp "hue" then [ClipOp.hue] else []) ++
  (if hasKey tp "noise" || hasKey tp "sparkles" || hasKey tp "lens_flare" then
    [ClipOp.frameEffects] else [])

/-- Spec-side condition for one clip operation being applied, written from
the spec's description of step 3/4 of `VideoUniquifier`. -/
def clipOpApplies (tp : List (String × List (String × ParamValue))) :
    ClipOp → Bool
  | .speed => hasKey tp "speed"
  | .brightness => hasKey tp "brightness"
  | .contrast => hasKey tp "contrast"
  | .saturation => hasKey tp "saturation"
  | .hue => hasKey tp "hue"
  | .frameEffects => hasKey tp "noise" || hasKey tp "sparkles" || hasKey tp "lens_flare"

/-- The frame-level effects of `_apply_frame_effects`. -/
inductive FrameFx where
  | noise | sparkle | lensFlare
deriving DecidableEq, Repr

/-- `_apply_frame_effects` for one frame, as the trace of effects applied:
noise whenever enabled; sparkles behind a fresh `random.random() < 0.3`
draw; lens flare behind a fresh `random.random() < 0.1` draw.  The
short-circuit `and` means a draw is consumed only when the effect is
enabled. -/
def applyFrameEffects (tp : List (String × List (String × ParamValue)))
    (g : RNG) : List FrameFx × RNG :=
  let fx1 : List FrameFx := if hasKey tp "noise" then [FrameFx.noise] else []
  let sp : List FrameFx × RNG :=
    if hasKey tp "sparkles" then
      let (u, g') := pyRandom g
      (if u < 3/10 then [FrameFx.sparkle] else [], g')
    else ([], g)
  let lf : List FrameFx × RNG :=
    if hasKey tp "lens_flare" then
      let (u, g') := pyRandom sp.2
      (if u < 1/10 then [FrameFx.lensFlare] else [], g')
    else ([], sp.2)
  (fx1 ++ sp.1 ++ lf.1, lf.2)

/-- Generator state after the sparkle gate of `_apply_frame_effects`: one
draw consumed when sparkles are enabled, none otherwise. -/
def afterSparkleGate (tp : List (String × List (String × ParamValue)))
    (g : RNG) : RNG :=
  if hasKey tp "sparkles" then (pyRandom g).2 else g

/-- Advance the generator by `n` draws. -/
def rngAdvance : ℕ → RNG → RNG
  | 0, g => g
  | n + 1, g => rngAdvance n (rngNext g).2

/-- Number of range-valued parameters in a parameter list: exactly the
parameters that consume one draw each during sampling. -/
def rangeCount (ps : List (String × ParamValue)) : ℕ :=
  ps.countP fun kv =>
    match kv.2 with
    | .range2 _ _ => true
    | _ => false

/-- Spec-side relation between one input parameter item and its sampled
output, from the ParameterSampler contract: an all-`int` range becomes one
integer inside the inclusive range; any other range becomes one float
inside `[min, max]` (when the range is ordered); a scalar passes through
unchanged. -/
def sampledFrom : ParamValue → ParamValue → Prop
  | .range2 (.int a) (.int b), v => ∃ n : ℤ, v = .num (.int n) ∧ a ≤ n ∧ n ≤ b
  | .range2 a b, v =>
      ∃ x : ℚ, v = .num (.float x) ∧
        (pyFloatOf a ≤ pyFloatOf b → pyFloatOf a ≤ x ∧ x ≤ pyFloatOf b)
  | .num v0, v => v = .num v0

/-- Spec-side relation between an input parameter list and the sampler's
output list: same keys in the same order, each value sampled from its
input value. -/
def sampledPairsFrom (ps out : List (String × ParamValue)) : Prop :=
  List.Forall₂ (fun p q => q.1 = p.1 ∧ sampledFrom p.2 q.2) ps out

/-- A trace registry for concrete runs: every name of `METHOD_REGISTRY`
maps to an effect that records its own name on the image and leaves both
generators untouched. -/
def regTrace : String → Option (EffectFn (List String)) :=
  fun n =>
    if n ∈ ["noise", "sparkles", "lens_flare", "rotate",
            "brightness", "contrast", "hue", "blur"] then
      some fun img _ g np => .ok (n :: img, g, np)
    else
      none

/-- A registry identical to `regTrace` except that `noise` always raises,
modelling one enabled effect forced to fail. -/
def regNoiseFails : String → Option (EffectFn (List String)) :=
  fun n =>
    if n = "noise" then some fun _ _ _ _ => .error "boom"
    else regTrace n

/-- A registry whose `noise` behaves like `add_noise`: it records a value
drawn from numpy's global generator on the image, advancing that
generator. -/
def regNoiseNp : String → Option (EffectFn (List ℕ)) :=
  fun n =>
    if n = "noise" then
      some fun img _ g np => .ok ((npNext np).1 :: img, g, (npNext np).2)
    else
      none

/-- An effect is numpy-transparent when its outcome — success or the same
error, the result image and the `random`-module state — is independent of
the incoming numpy state, which it returns unchanged.  This holds exactly
for effects that never draw from `np.random`. -/
def npTransparent {Image : Type} (f : EffectFn Image) : Prop :=
  ∀ (img : Image) (ps : List (String × ParamValue)) (g : RNG) (np np' : NpRNG),
    (∃ (i1 : Image) (g1 : RNG),
      f img ps g np = .ok (i1, g1, np) ∧ f img ps g np' = .ok (i1, g1, np')) ∨
    (∃ e, f img ps g np = .error e ∧ f img ps g np' = .error e)

/-- The scaled-then-sampled noise amplitude: build the one-method preset
`{'name': 'noise', 'enabled': True, 'intensity': [a, b]}`, run the
intensity scaler at the given level, then sample its parameters from a
freshly seeded generator and extract the sampled `intensity`. -/
def sampledNoiseAmp (level : String) (a b : ℤ) (seed : ℤ) : Option ℤ :=
  match applyIntensityMultiplier level
      [⟨"noise", true, [("intensity", ParamValue.range2 (PyNum.int a) (PyNum.int b))]⟩] with
  | [m] =>
      match samplePairs m.params (pySeed seed) with
      | .ok ([(_, ParamValue.num (PyNum.int n))], _) => some n
      | _ => none
  | _ => none

/-! ### Helper lemmas -/

theorem truncToward0_intCast (n : ℤ) : truncToward0 (n : ℚ) = n := by
  unfold truncToward0
  split
  · exact Int.floor_intCast n
  · exact Int.ceil_intCast n

theorem truncToward0_of_nonneg (q : ℚ) (h : 0 ≤ q) : truncToward0 q = ⌊q⌋ := by
  unfold truncToward0
  rw [if_pos h]

theorem abs_truncToward0_sub_lt_one (q : ℚ) : |((truncToward0 q : ℤ) : ℚ) - q| < 1 := by
  unfold truncToward0
  rcases le_or_lt 0 q with h | h
  · rw [if_pos h, abs_sub_lt_iff]
    constructor
    · linarith [Int.floor_le q]
    · linarith [Int.sub_one_lt_floor q]
  · rw [if_neg (not_le.mpr h), abs_sub_lt_iff]
    constructor
    · linarith [Int.ceil_lt_add_one q]
    · linarith [Int.le_ceil q]

theorem pyRandint_mem (a b : ℤ) (hab : a ≤ b) (g : RNG) :
    pyRandint a b g =
      .ok (a + ((rngNext g).1 : ℤ) % (b - a + 1), (rngNext g).2) ∧
    a ≤ a + ((rngNext g).1 : ℤ) % (b - a + 1) ∧
    a + ((rngNext g).1 : ℤ) % (b - a + 1) ≤ b := by
  have h0 : 0 ≤ ((rngNext g).1 : ℤ) % (b - a + 1) :=
    Int.emod_nonneg _ (by omega)
  have h1 : ((rngNext g).1 : ℤ) % (b - a + 1) < b - a + 1 :=
    Int.emod_lt_of_pos _ (by omega)
  refine ⟨?_, by omega, by omega⟩
  unfold pyRandint
  rw [if_pos hab]

/-! ### C4: intensity scaler contract -/

/-- C4: the intensity scaler returns the methods list with every effect's
numeric parameters rewritten by the level's factor — Low = 0.5, Medium =
1.0, High = 1.3 — except the protected set `{brightness, contrast, hue,
blur}`, which always passes through unchanged at every level; float
parameters are multiplied exactly, integer parameters are multiplied and
converted back to `int` (landing within 1 of the exact product). -/
theorem intensity_scaler_contract (level : String) (factor : ℚ)
    (hlf : level = "low" ∧ factor = 1/2 ∨ level = "medium" ∧ factor = 1 ∨
      level = "high" ∧ factor = 13/10) (ms : List MethodConfig) :
    applyIntensityMultiplier level ms = ms.map (scaleMethod factor) ∧
    (∀ m : MethodConfig, m.name ∈ noScaleMethods → scaleMethod factor m = m) ∧
    (∀ m : MethodConfig, m.name ∉ noScaleMethods →
      scaleMethod factor m =
        { m with params := m.params.map fun kv => (kv.1, scaleParamValue factor kv.2) }) ∧
    (∀ x : ℚ, scaleNum factor (.float x) = .float (x * factor)) ∧
    (∀ n : ℤ, ∃ k : ℤ, scaleNum factor (.int n) = .int k ∧
      |(k : ℚ) - (n : ℚ) * factor| < 1) := by
  have hmul : multiplierFor level = factor := by
    rcases hlf with ⟨h1, h2⟩ | ⟨h1, h2⟩ | ⟨h1, h2⟩ <;> subst h1 <;> subst h2 <;>
      simp [multiplierFor]
  refine ⟨by rw [applyIntensityMultiplier, hmul], ?_, ?_, fun x => rfl, ?_⟩
  · intro m hm
    rw [scaleMethod, if_pos hm]
  · intro m hm
    rw [scaleMethod, if_neg hm]
  · intro n
    exact ⟨truncToward0 ((n : ℚ) * factor), rfl, abs_truncToward0_sub_lt_one _⟩

/-- Concrete sample list used by several witnesses: a default-preset noise
spec with range `[30, 80]`. -/
def msNoise : List MethodConfig :=
  [⟨"noise", true, [("intensity", ParamValue.range2 (PyNum.int 30) (PyNum.int 80))]⟩]

/-- Witness for C4 at intensity `high`: the scaler rewrites `[30, 80]`
to `[39, 104]`. -/
theorem intensity_scaler_contract_witness :
    applyIntensityMultiplier "high" msNoise = msNoise.map (scaleMethod (13/10)) ∧
    msNoise.map (scaleMethod (13/10)) =
      [⟨"noise", true, [("intensity", ParamValue.range2 (PyNum.int 39) (PyNum.int 104))]⟩] := by
  refine ⟨(intensity_scaler_contract "high" (13/10) (Or.inr (Or.inr ⟨rfl, rfl⟩)) msNoise).1, ?_⟩
  have h1 : truncToward0 ((30 : ℚ) * (13/10)) = 39 := by
    rw [truncToward0_of_nonneg _ (by norm_num)]
    norm_num
  have h2 : truncToward0 ((80 : ℚ) * (13/10)) = 104 := by
    rw [truncToward0_of_nonneg _ (by norm_num)]
    norm_num
  simp [msNoise, scaleMethod, noScaleMethods, scaleParamValue, scaleNum]
  exact ⟨h1, h2⟩

/-! ### C5: integer scaling truncates, it does not round -/

/-- C5 counterexample: the integer endpoint 15 scaled at High becomes 19 in
the code, while rounding `15 * 1.3 = 19.5` to the nearest integer (the
claim's own example) gives 20. -/
theorem int_scaling_truncates_counterexample :
    applyIntensityMultiplier "high"
        [⟨"noise", true, [("intensity", ParamValue.range2 (PyNum.int 15) (PyNum.int 15))]⟩] =
      [⟨"noise", true, [("intensity", ParamValue.range2 (PyNum.int 19) (PyNum.int 19))]⟩] ∧
    round ((15 : ℚ) * (13/10)) = 20 ∧ (19 : ℤ) ≠ 20 := by
  have h1 : truncToward0 ((15 : ℚ) * (13/10)) = 19 := by
    rw [truncToward0_of_nonneg _ (by norm_num)]
    norm_num
  refine ⟨?_, by norm_num [round_eq], by decide⟩
  simp [applyIntensityMultiplier, scaleMethod, noScaleMethods, scaleParamValue, scaleNum,
    multiplierFor]
  exact h1

/-- C5 amended: scaling preserves each value's numeric kind — a float stays
a float and is multiplied exactly, an integer stays an integer — but the
integer conversion truncates toward zero (the floor, for a nonnegative
product) rather than rounding to the nearest integer. -/
theorem intensity_scaling_type_preservation (mult : ℚ) :
    (∀ x : ℚ, scaleNum mult (.float x) = .float (x * mult)) ∧
    (∀ n : ℤ, 0 ≤ (n : ℚ) * mult →
      scaleNum mult (.int n) = .int ⌊(n : ℚ) * mult⌋) ∧
    (∀ n : ℤ, ∃ k : ℤ, scaleNum mult (.int n) = .int k ∧
      |(k : ℚ) - (n : ℚ) * mult| < 1) := by
  refine ⟨fun x => rfl, ?_, ?_⟩
  · intro n hn
    rw [scaleNum, truncToward0_of_nonneg _ hn]
  · intro n
    exact ⟨truncToward0 ((n : ℚ) * mult), rfl, abs_truncToward0_sub_lt_one _⟩

/-- Witness for the amended C5 at `15 * 1.3`: the scaled value is the
floor 19. -/
theorem intensity_scaling_type_preservation_witness :
    scaleNum (13/10) (.int 15) = .int ⌊(15 : ℚ) * (13/10)⌋ ∧
    (⌊(15 : ℚ) * (13/10)⌋ : ℤ) = 19 :=
  ⟨(intensity_scaling_type_preservation (13/10)).2.1 15 (by norm_num), by norm_num⟩

/-! ### C10: unrecognised intensity levels get multiplier 1.5 -/

/-- C10: any intensity string outside `{low, medium, high}` (including
different casing) silently selects the dictionary-default multiplier 1.5,
strictly larger than High's 1.3, and the scaler applies it to every
non-protected method's numeric parameters. -/
theorem unknown_intensity_multiplier (level : String)
    (h1 : level ≠ "low") (h2 : level ≠ "medium") (h3 : level ≠ "high") :
    multiplierFor level = 3/2 ∧
    multiplierFor "high" < multiplierFor level ∧
    ∀ ms : List MethodConfig,
      applyIntensityMultiplier level ms = ms.map (scaleMethod (3/2)) := by
  have hm : multiplierFor level = 3/2 := by
    rw [multiplierFor, if_neg h1, if_neg h2, if_neg h3]
  refine ⟨hm, ?_, fun ms => by rw [applyIntensityMultiplier, hm]⟩
  have hh : multiplierFor "high" = 13/10 := by simp [multiplierFor]
  rw [hm, hh]
  norm_num

/-- Witness for C10 at the miscased level `"Low"`: it is treated as
unknown and gets multiplier 1.5. -/
theorem unknown_intensity_multiplier_witness :
    multiplierFor "Low" = 3/2 ∧
    multiplierFor "high" < multiplierFor "Low" ∧
    ∀ ms : List MethodConfig,
      applyIntensityMultiplier "Low" ms = ms.map (scaleMethod (3/2)) :=
  unknown_intensity_multiplier "Low" (by decide) (by decide) (by decide)

/-! ### C9: intensity monotonicity of the sampled noise amplitude -/

theorem samplePairs_single_intRange (k : String) (a b : ℤ) (hab : a ≤ b) (g : RNG) :
    samplePairs [(k, ParamValue.range2 (PyNum.int a) (PyNum.int b))] g =
      .ok ([(k, ParamValue.num (PyNum.int (a + ((rngNext g).1 : ℤ) % (b - a + 1))))],
        (rngNext g).2) := by
  have heq := (pyRandint_mem a b hab g).1
  simp only [samplePairs, sampleParamValue, heq]

theorem sampledNoiseAmp_closed (level : String) (a b seed lo hi : ℤ)
    (hlo : truncToward0 ((a : ℚ) * multiplierFor level) = lo)
    (hhi : truncToward0 ((b : ℚ) * multiplierFor level) = hi)
    (hord : lo ≤ hi) :
    sampledNoiseAmp level a b seed =
      some (lo + ((rngNext (pySeed seed)).1 : ℤ) % (hi - lo + 1)) := by
  have hscale : applyIntensityMultiplier level
      [⟨"noise", true, [("intensity", ParamValue.range2 (PyNum.int a) (PyNum.int b))]⟩] =
      [⟨"noise", true, [("intensity", ParamValue.range2 (PyNum.int lo) (PyNum.int hi))]⟩] := by
    rw [applyIntensityMultiplier, List.map_cons, List.map_nil, scaleMethod,
      if_neg (by decide : ¬ (("noise" : String) ∈ noScaleMethods))]
    simp only [List.map_cons, List.map_nil, scaleParamValue, scaleNum, hlo, hhi]
  simp only [sampledNoiseAmp, hscale, samplePairs_single_intRange _ _ _ hord (pySeed seed)]

theorem sampledNoiseAmp_spec (level : String) (a b seed : ℤ)
    (hord : truncToward0 ((a : ℚ) * multiplierFor level) ≤
      truncToward0 ((b : ℚ) * multiplierFor level)) :
    ∃ v : ℤ, sampledNoiseAmp level a b seed = some v ∧
      truncToward0 ((a : ℚ) * multiplierFor level) ≤ v ∧
      v ≤ truncToward0 ((b : ℚ) * multiplierFor level) := by
  obtain ⟨_, hl, hr⟩ := pyRandint_mem _ _ hord (pySeed seed)
  exact ⟨_, sampledNoiseAmp_closed level a b seed _ _ rfl rfl hord, hl, hr⟩

/-- C9 counterexample: with the default noise range `[30, 80]` and seed 0,
the sampled amplitude is 36 under Low but only 33 under Medium (the scaled
ranges have different widths, so the same draw lands differently); the
claimed chain High ≥ Medium ≥ Low already fails at Medium ≥ Low. -/
theorem noise_amplitude_monotonicity_counterexample :
    sampledNoiseAmp "low" 30 80 0 = some 36 ∧
    sampledNoiseAmp "medium" 30 80 0 = some 33 ∧
    ¬ ((33 : ℤ) ≥ 36) := by
  have hml : multiplierFor "low" = 1/2 := by simp [multiplierFor]
  have hmm : multiplierFor "medium" = 1 := by simp [multiplierFor]
  have hL := sampledNoiseAmp_closed "low" 30 80 0 15 40
    (by rw [hml, truncToward0_of_nonneg _ (by norm_num)]; norm_num)
    (by rw [hml, truncToward0_of_nonneg _ (by norm_num)]; norm_num)
    (by norm_num)
  have hM := sampledNoiseAmp_closed "medium" 30 80 0 30 80
    (by rw [hmm, truncToward0_of_nonneg _ (by norm_num)]; norm_num)
    (by rw [hmm, truncToward0_of_nonneg _ (by norm_num)]; norm_num)
    (by norm_num)
  refine ⟨?_, ?_, by norm_num⟩
  · rw [hL]; decide
  · rw [hM]; decide

/-- C9 amended: for every nonnegative ordered base range and every seed,
the intensity-scaled noise range bounds are monotone in the level (Low's
bounds ≤ Medium's ≤ High's) and each level's sampled amplitude lies inside
that level's scaled range — but the sampled amplitudes themselves need not
be ordered, because the draw is reduced modulo each range's width. -/
theorem noise_scaled_range_monotone (a b seed : ℤ) (ha : 0 ≤ a) (hab : a ≤ b) :
    ∃ vL vM vH : ℤ,
      sampledNoiseAmp "low" a b seed = some vL ∧
      sampledNoiseAmp "medium" a b seed = some vM ∧
      sampledNoiseAmp "high" a b seed = some vH ∧
      ⌊(a : ℚ) * (1/2)⌋ ≤ vL ∧ vL ≤ ⌊(b : ℚ) * (1/2)⌋ ∧
      a ≤ vM ∧ vM ≤ b ∧
      ⌊(a : ℚ) * (13/10)⌋ ≤ vH ∧ vH ≤ ⌊(b : ℚ) * (13/10)⌋ ∧
      ⌊(a : ℚ) * (1/2)⌋ ≤ a ∧ a ≤ ⌊(a : ℚ) * (13/10)⌋ ∧
      ⌊(b : ℚ) * (1/2)⌋ ≤ b ∧ b ≤ ⌊(b : ℚ) * (13/10)⌋ := by
  have ha' : (0 : ℚ) ≤ (a : ℚ) := by exact_mod_cast ha
  have hab' : (a : ℚ) ≤ (b : ℚ) := by exact_mod_cast hab
  have hb' : (0 : ℚ) ≤ (b : ℚ) := le_trans ha' hab'
  have hml : multiplierFor "low" = 1/2 := by simp [multiplierFor]
  have hmm : multiplierFor "medium" = 1 := by simp [multiplierFor]
  have hmh : multiplierFor "high" = 13/10 := by simp [multiplierFor]
  have htL : ∀ (q : ℚ), 0 ≤ q → truncToward0 (q * multiplierFor "low") = ⌊q * (1/2)⌋ := by
    intro q hq
    rw [hml, truncToward0_of_nonneg _ (by positivity)]
  have htM : ∀ (q : ℚ), 0 ≤ q → truncToward0 (q * multiplierFor "medium") = ⌊q⌋ := by
    intro q hq
    rw [hmm, mul_one, truncToward0_of_nonneg _ hq]
  have htH : ∀ (q : ℚ), 0 ≤ q → truncToward0 (q * multiplierFor "high") = ⌊q * (13/10)⌋ := by
    intro q hq
    rw [hmh, truncToward0_of_nonneg _ (by positivity)]
  obtain ⟨vL, hLe, hL1, hL2⟩ := sampledNoiseAmp_spec "low" a b seed (by
    rw [htL _ ha', htL _ hb']
    exact Int.floor_le_floor (by linarith))
  obtain ⟨vM, hMe, hM1, hM2⟩ := sampledNoiseAmp_spec "medium" a b seed (by
    rw [htM _ ha', htM _ hb']
    exact Int.floor_le_floor hab')
  obtain ⟨vH, hHe, hH1, hH2⟩ := sampledNoiseAmp_spec "high" a b seed (by
    rw [htH _ ha', htH _ hb']
    exact Int.floor_le_floor (by linarith))
  rw [htL _ ha'] at hL1
  rw [htL _ hb'] at hL2
  rw [htM _ ha', Int.floor_intCast] at hM1
  rw [htM _ hb', Int.floor_intCast] at hM2
  rw [htH _ ha'] at hH1
  rw [htH _ hb'] at hH2
  refine ⟨vL, vM, vH, hLe, hMe, hHe, hL1, hL2, hM1, hM2, hH1, hH2, ?_, ?_, ?_, ?_⟩
  · have h := Int.floor_le_floor (show (a : ℚ) * (1/2) ≤ (a : ℚ) by linarith)
    rwa [Int.floor_intCast] at h
  · exact Int.le_floor.mpr (by linarith)
  · have h := Int.floor_le_floor (show (b : ℚ) * (1/2) ≤ (b : ℚ) by linarith)
    rwa [Int.floor_intCast] at h
  · exact Int.le_floor.mpr (by linarith)

/-- Witness for the amended C9 at range `[30, 80]`, seed 0. -/
theorem noise_scaled_range_monotone_witness :
    ∃ vL vM vH : ℤ,
      sampledNoiseAmp "low" 30 80 0 = some vL ∧
      sampledNoiseAmp "medium" 30 80 0 = some vM ∧
      sampledNoiseAmp "high" 30 80 0 = some vH ∧
      ⌊(30 : ℚ) * (1/2)⌋ ≤ vL ∧ vL ≤ ⌊(80 : ℚ) * (1/2)⌋ ∧
      (30 : ℤ) ≤ vM ∧ vM ≤ 80 ∧
      ⌊(30 : ℚ) * (13/10)⌋ ≤ vH ∧ vH ≤ ⌊(80 : ℚ) * (13/10)⌋ ∧
      ⌊(30 : ℚ) * (1/2)⌋ ≤ 30 ∧ (30 : ℤ) ≤ ⌊(30 : ℚ) * (13/10)⌋ ∧
      ⌊(80 : ℚ) * (1/2)⌋ ≤ 80 ∧ (80 : ℤ) ≤ ⌊(80 : ℚ) * (13/10)⌋ := by
  have h := noise_scaled_range_monotone 30 80 0 (by norm_num) (by norm_num)
  push_cast at h
  exact h

/-! ### C2: a raising effect function is skipped, the pipeline continues -/

theorem applyMethods_append {Image : Type} (reg : String → Option (EffectFn Image))
    (xs ys : List MethodConfig) (img : Image) (g : RNG) (np : NpRNG) :
    applyMethods reg (xs ++ ys) img g np =
      match applyMethods reg xs img g np with
      | .ok (i, g', np') => applyMethods reg ys i g' np'
      | .error e => .error e := by
  induction xs generalizing img g np with
  | nil => simp [applyMethods]
  | cons mc rest ih =>
      rw [List.cons_append]
      show applyMethods reg (mc :: (rest ++ ys)) img g np = _
      simp only [applyMethods]
      cases hen : mc.enabled with
      | false => simp only [Bool.false_eq_true, if_false, ih]
      | true =>
          simp only [if_true]
          cases hreg : reg mc.name with
          | none => simp only [ih]
          | some f =>
              cases hsp : samplePairs mc.params g with
              | error e => rfl
              | ok pg =>
                  cases hf : f img pg.1 pg.2 np with
                  | ok t => simp only [ih, hf]
                  | error e => simp only [ih, hf]

/-- C2: if an enabled effect's registry function raises on every input,
then after any successful prefix of the pipeline the failing effect leaves
the image unchanged (its parameters are still sampled, consuming the
generator) and the remaining effects run on the image state from before
the failure; the loop result is exactly that of the remaining effects, so
the copy is still produced and the failure raises nothing. -/
theorem effect_failure_skipped {Image : Type} (reg : String → Option (EffectFn Image))
    (pre rest : List MethodConfig) (mc : MethodConfig) (img img1 : Image)
    (g g1 g2 : RNG) (np np1 : NpRNG) (ps : List (String × ParamValue))
    (f : EffectFn Image)
    (hpre : applyMethods reg pre img g np = .ok (img1, g1, np1))
    (hen : mc.enabled = true)
    (hreg : reg mc.name = some f)
    (hfail : ∀ (im : Image) (p : List (String × ParamValue)) (gx : RNG)
      (npx : NpRNG), ∃ e, f im p gx npx = .error e)
    (hsamp : samplePairs mc.params g1 = .ok (ps, g2)) :
    applyMethods reg (pre ++ mc :: rest) img g np =
      applyMethods reg rest img1 g2 np1 := by
  rw [applyMethods_append, hpre]
  obtain ⟨e, he⟩ := hfail img1 ps g2 np1
  show applyMethods reg (mc :: rest) img1 g1 np1 = _
  simp only [applyMethods, hen, if_true, hreg, hsamp, he]

/-- Concrete method specs used by witnesses and counterexamples. -/
def mcNoiseRange : MethodConfig :=
  ⟨"noise", true, [("intensity", ParamValue.range2 (PyNum.int 3) (PyNum.int 8))]⟩

def mcBright : MethodConfig := ⟨"brightness", true, []⟩

/-- Witness for C2: with `noise` forced to always raise, the two-method
pipeline still applies `brightness` to the pre-failure image and returns
normally. -/
theorem effect_failure_skipped_witness :
    applyMethods regNoiseFails [mcNoiseRange, mcBright] ([] : List String)
        ⟨0⟩ ⟨0⟩ =
      .ok (["brightness"], ⟨12345⟩, ⟨0⟩) := by
  have h := effect_failure_skipped regNoiseFails [] [mcBright] mcNoiseRange
    ([] : List String) ([] : List String) ⟨0⟩ ⟨0⟩ ⟨12345⟩ ⟨0⟩ ⟨0⟩
    [("intensity", ParamValue.num (PyNum.int 6))] (fun _ _ _ _ => .error "boom")
    rfl rfl rfl (fun im p gx npx => ⟨"boom", rfl⟩) rfl
  rw [List.nil_append] at h
  rw [h]
  rfl

/-! ### C3: config-error handling -/

/-- Malformed method spec used by the C3 counterexample: an integer range
with min > max. -/
def mcBadRange : MethodConfig :=
  ⟨"noise", true, [("intensity", ParamValue.range2 (PyNum.int 10) (PyNum.int 5))]⟩

/-- C3 counterexample: a malformed integer range (min 10 > max 5) is not
skipped with a warning — `randint` raises inside `_prepare_parameters`,
outside the per-effect try, so the whole copy is aborted: the remaining
enabled `brightness` effect never runs and `uniquify(count = 1)` returns
no copy at all. -/
theorem malformed_range_aborts_copy :
    photoProcessCopy regTrace [mcBadRange, mcBright] "jpeg" false id id true
        ([] : List String) 0 "img" 0 ⟨0⟩ ⟨0⟩ = .error "empty range" ∧
    (photoUniquify regTrace [mcBadRange, mcBright] "jpeg" false id id true
        ([] : List String) 0 "img" 1 ⟨0⟩ ⟨0⟩).1 = [] :=
  ⟨rfl, rfl⟩

/-- C3 amended: an unknown effect name is skipped and processing continues
with the remaining effects, and a mismatched-type range is silently
sampled as a float range rather than skipped; but a malformed all-integer
range with min > max makes `randint` raise during parameter preparation,
which aborts the entire copy (the remaining effects are not applied and
the copy is not produced). -/
theorem config_error_handling {Image : Type} (reg : String → Option (EffectFn Image)) :
    (∀ (mc : MethodConfig) (rest : List MethodConfig) (img : Image) (g : RNG)
        (np : NpRNG),
      reg mc.name = none →
      applyMethods reg (mc :: rest) img g np = applyMethods reg rest img g np) ∧
    (∀ (a b : ℤ) (g : RNG), b < a → pyRandint a b g = .error "empty range") ∧
    (∀ (mc : MethodConfig) (rest : List MethodConfig) (img : Image) (g : RNG)
        (np : NpRNG) (f : EffectFn Image) (e : String),
      mc.enabled = true → reg mc.name = some f →
      samplePairs mc.params g = .error e →
      applyMethods reg (mc :: rest) img g np = .error e) ∧
    (∀ (a : ℤ) (y : ℚ) (g : RNG),
      sampleParamValue (ParamValue.range2 (PyNum.int a) (PyNum.float y)) g =
        .ok (.num (.float (pyUniform (a : ℚ) y g).1), (pyUniform (a : ℚ) y g).2)) := by
  refine ⟨?_, ?_, ?_, fun a y g => rfl⟩
  · intro mc rest img g np hreg
    cases hen : mc.enabled with
    | false => simp only [applyMethods, hen, Bool.false_eq_true, if_false]
    | true => simp only [applyMethods, hen, if_true, hreg]
  · intro a b g hba
    rw [pyRandint, if_neg (by omega)]
  · intro mc rest img g np f e hen hreg hsamp
    simp only [applyMethods, hen, if_true, hreg, hsamp]

/-- Unknown method spec used by the C3 witness. -/
def mcUnknown : MethodConfig := ⟨"wobble", true, []⟩

/-- Witness for the amended C3: `wobble` is not in the registry and is
skipped; `randint` on the empty range `[10, 5]` raises; the sampling error
aborts the method loop; a mixed `int`/`float` range is sampled via
`uniform`. -/
theorem config_error_handling_witness :
    applyMethods regTrace [mcUnknown, mcBright] ([] : List String) ⟨0⟩ ⟨0⟩ =
      applyMethods regTrace [mcBright] ([] : List String) ⟨0⟩ ⟨0⟩ ∧
    pyRandint 10 5 ⟨0⟩ = .error "empty range" ∧
    applyMethods regTrace [mcBadRange, mcBright] ([] : List String) ⟨0⟩ ⟨0⟩ =
      .error "empty range" ∧
    sampleParamValue (ParamValue.range2 (PyNum.int 1) (PyNum.float (5/2))) ⟨0⟩ =
      .ok (.num (.float (pyUniform ((1 : ℤ) : ℚ) (5/2) ⟨0⟩).1),
        (pyUniform ((1 : ℤ) : ℚ) (5/2) ⟨0⟩).2) := by
  have h := config_error_handling regTrace
  exact ⟨h.1 mcUnknown [mcBright] [] ⟨0⟩ ⟨0⟩ rfl,
    h.2.1 10 5 ⟨0⟩ (by omega),
    h.2.2.1 mcBadRange [mcBright] [] ⟨0⟩ ⟨0⟩
      (fun img _ g np => .ok ("noise" :: img, g, np)) "empty range" rfl rfl rfl,
    h.2.2.2 1 (5/2) ⟨0⟩⟩

/-! ### C6: parameter sampler contract -/

theorem pyRandom_eq (g : RNG) :
    pyRandom g = (((rngNext g).1 : ℚ) / 2147483648, (rngNext g).2) := rfl

theorem pyUniform_eq (a b : ℚ) (g : RNG) :
    pyUniform a b g = (a + (b - a) * (pyRandom g).1, (rngNext g).2) := rfl

theorem pyRandom_bounds (g : RNG) : 0 ≤ (pyRandom g).1 ∧ (pyRandom g).1 < 1 := by
  rw [pyRandom_eq]
  constructor
  · positivity
  · rw [div_lt_one (by norm_num)]
    have hm : (rngNext g).1 < 2147483648 :=
      Nat.mod_lt _ (by norm_num)
    exact_mod_cast hm

theorem pyUniform_mem (a b : ℚ) (hab : a ≤ b) (g : RNG) :
    a ≤ (pyUniform a b g).1 ∧ (pyUniform a b g).1 ≤ b := by
  obtain ⟨h0, h1⟩ := pyRandom_bounds g
  rw [pyUniform_eq]
  constructor
  · have := mul_nonneg (sub_nonneg.mpr hab) h0
    simp only []
    linarith
  · have := mul_le_mul_of_nonneg_left (le_of_lt h1) (sub_nonneg.mpr hab)
    simp only []
    linarith

theorem sampleParamValue_floatLeft (ax : ℚ) (b : PyNum) (g : RNG) :
    sampleParamValue (ParamValue.range2 (PyNum.float ax) b) g =
      .ok (.num (.float (pyUniform ax (pyFloatOf b) g).1),
        (pyUniform ax (pyFloatOf b) g).2) := by
  cases b <;> rfl

theorem sampleParamValue_floatRight (ax : ℤ) (bx : ℚ) (g : RNG) :
    sampleParamValue (ParamValue.range2 (PyNum.int ax) (PyNum.float bx)) g =
      .ok (.num (.float (pyUniform (ax : ℚ) bx g).1),
        (pyUniform (ax : ℚ) bx g).2) := rfl

theorem samplePairs_cons_of_ok (k : String) (v w : ParamValue)
    (rest : List (String × ParamValue)) (g g1 : RNG)
    (hv : sampleParamValue v g = .ok (w, g1)) :
    samplePairs ((k, v) :: rest) g =
      match samplePairs rest g1 with
      | .ok (out, g2) => .ok ((k, w) :: out, g2)
      | .error e => .error e := by
  simp only [samplePairs, hv]

/-- C6 amended: a successful sampling run replaces every two-element range
by exactly one value inside the range (inclusive for all-integer ranges,
continuous for float ranges), passes every scalar through unchanged with
the same keys in the same order, and advances the seeded source by exactly
one draw per range parameter — scalars consume no draw — so the final
generator state, and hence reproducibility under reseeding, is a function
of the parameter list and the seed alone. -/
theorem sampler_contract (ps : List (String × ParamValue)) (g : RNG)
    (out : List (String × ParamValue)) (g' : RNG)
    (h : samplePairs ps g = .ok (out, g')) :
    g' = rngAdvance (rangeCount ps) g ∧ sampledPairsFrom ps out := by
  induction ps generalizing g out g' with
  | nil =>
      simp only [samplePairs, Except.ok.injEq, Prod.mk.injEq] at h
      obtain ⟨rfl, rfl⟩ := h
      exact ⟨rfl, List.Forall₂.nil⟩
  | cons kv rest ih =>
      obtain ⟨k, v⟩ := kv
      have step : ∀ (w : ParamValue) (g1 : RNG),
          sampleParamValue v g = .ok (w, g1) →
          sampledFrom v w →
          g1 = rngAdvance (if (match v with | ParamValue.range2 _ _ => true | _ => false)
            then 1 else 0) g →
          g' = rngAdvance (rangeCount ((k, v) :: rest)) g ∧
            sampledPairsFrom ((k, v) :: rest) out := by
        intro w g1 hv hsf hg1
        rw [samplePairs_cons_of_ok k v w rest g g1 hv] at h
        cases hr : samplePairs rest g1 with
        | error e => rw [hr] at h; cases h
        | ok p =>
            obtain ⟨out1, g2⟩ := p
            rw [hr] at h
            simp only [Except.ok.injEq, Prod.mk.injEq] at h
            obtain ⟨rfl, rfl⟩ := h
            obtain ⟨hadv, hfa⟩ := ih g1 out1 g2 hr
            refine ⟨?_, List.Forall₂.cons ⟨rfl, hsf⟩ hfa⟩
            rw [hadv, hg1]
            cases v with
            | num v0 => simp [rangeCount, List.countP_cons, rngAdvance]
            | range2 a b =>
                simp [rangeCount, List.countP_cons, rngAdvance]
      cases v with
      | num v0 => exact step (ParamValue.num v0) g rfl rfl rfl
      | range2 a b =>
          cases a with
          | int ax =>
              cases b with
              | int bx =>
                  rcases le_or_lt ax bx with hab | hab
                  · obtain ⟨heq, h1, h2⟩ := pyRandint_mem ax bx hab g
                    refine step _ (rngNext g).2 ?_ ⟨_, rfl, h1, h2⟩ rfl
                    simp only [sampleParamValue, heq]
                  · rw [samplePairs] at h
                    rw [show sampleParamValue
                        (ParamValue.range2 (PyNum.int ax) (PyNum.int bx)) g =
                        .error "empty range" from by
                      simp only [sampleParamValue, pyRandint,
                        if_neg (not_le.mpr hab)]] at h
                    cases h
              | float bx =>
                  refine step _ (rngNext g).2 (sampleParamValue_floatRight ax bx g) ?_ rfl
                  exact ⟨_, rfl, fun hle => pyUniform_mem _ _ hle g⟩
          | float ax =>
              refine step _ (rngNext g).2 (sampleParamValue_floatLeft ax b g) ?_ rfl
              cases b <;> exact ⟨_, rfl, fun hle => pyUniform_mem _ _ hle g⟩

/-- C6 counterexample: a parameter map holding one scalar parameter is
sampled without consuming any draw — the generator state is unchanged,
whereas consuming "exactly once per parameter" would have advanced it. -/
theorem sampler_scalar_consumes_no_draw :
    samplePairs [("factor", ParamValue.num (PyNum.int 7))] ⟨1⟩ =
      .ok ([("factor", ParamValue.num (PyNum.int 7))], ⟨1⟩) ∧
    rngAdvance 1 ⟨1⟩ = ⟨1103527590⟩ ∧ (⟨1103527590⟩ : RNG) ≠ (⟨1⟩ : RNG) :=
  ⟨rfl, rfl, by decide⟩

/-- Parameter list used by the C6 witness: one integer range and one
scalar. -/
def psSample : List (String × ParamValue) :=
  [("intensity", ParamValue.range2 (PyNum.int 3) (PyNum.int 8)),
   ("flag", ParamValue.num (PyNum.int 1))]

/-- Witness for the amended C6: sampling `psSample` from state 0 consumes
exactly one draw (the one range) and satisfies the pointwise relation. -/
theorem sampler_contract_witness :
    (⟨12345⟩ : RNG) = rngAdvance (rangeCount psSample) ⟨0⟩ ∧
    sampledPairsFrom psSample
      [("intensity", ParamValue.num (PyNum.int 6)),
       ("flag", ParamValue.num (PyNum.int 1))] :=
  sampler_contract psSample ⟨0⟩
    [("intensity", ParamValue.num (PyNum.int 6)),
     ("flag", ParamValue.num (PyNum.int 1))] ⟨12345⟩ rfl

/-! ### C7: video transform order and frame-effect gating -/

/-- C7: `_process_video` wraps the clip operations in the fixed order
speed, brightness, contrast, saturation, hue, frame-effects (each colour
operation and the frame-effect callback mapping over every frame), i.e.
the applied trace is the canonical ordered list filtered by presence; and
per frame, `_apply_frame_effects` applies noise unconditionally whenever
enabled, sparkles only when enabled and a fresh draw is below 0.3, and
lens flare only when enabled and a fresh draw is below 0.1. -/
theorem video_transform_order (tp : List (String × List (String × ParamValue)))
    (g : RNG) :
    processVideoOps tp =
      [ClipOp.speed, ClipOp.brightness, ClipOp.contrast, ClipOp.saturation,
        ClipOp.hue, ClipOp.frameEffects].filter (clipOpApplies tp) ∧
    (FrameFx.noise ∈ (applyFrameEffects tp g).1 ↔ hasKey tp "noise" = true) ∧
    (FrameFx.sparkle ∈ (applyFrameEffects tp g).1 ↔
      hasKey tp "sparkles" = true ∧ (pyRandom g).1 < 3/10) ∧
    (FrameFx.lensFlare ∈ (applyFrameEffects tp g).1 ↔
      hasKey tp "lens_flare" = true ∧
        (pyRandom (afterSparkleGate tp g)).1 < 1/10) := by
  refine ⟨?_, ?_, ?_, ?_⟩
  · cases h1 : hasKey tp "speed" <;> cases h2 : hasKey tp "brightness" <;>
      cases h3 : hasKey tp "contrast" <;> cases h4 : hasKey tp "saturation" <;>
      cases h5 : hasKey tp "hue" <;>
      cases h6 : (hasKey tp "noise" || hasKey tp "sparkles" || hasKey tp "lens_flare") <;>
      simp [processVideoOps, clipOpApplies, List.filter, h1, h2, h3, h4, h5, h6]
  · cases h1 : hasKey tp "noise" <;> cases h2 : hasKey tp "sparkles" <;>
      cases h3 : hasKey tp "lens_flare" <;>
      by_cases h4 : (pyRandom g).1 < 3/10 <;>
      by_cases h5 : (pyRandom (afterSparkleGate tp g)).1 < 1/10 <;>
      simp [applyFrameEffects, afterSparkleGate, h1, h2, h3, h4, h5]
  · cases h1 : hasKey tp "noise" <;> cases h2 : hasKey tp "sparkles" <;>
      cases h3 : hasKey tp "lens_flare" <;>
      by_cases h4 : (pyRandom g).1 < 3/10 <;>
      by_cases h5 : (pyRandom (afterSparkleGate tp g)).1 < 1/10 <;>
      simp [applyFrameEffects, afterSparkleGate, h1, h2, h3, h4, h5]
  · cases h1 : hasKey tp "noise" <;> cases h2 : hasKey tp "sparkles" <;>
      cases h3 : hasKey tp "lens_flare" <;>
      by_cases h4 : (pyRandom g).1 < 3/10 <;>
      by_cases h5 : (pyRandom (afterSparkleGate tp g)).1 < 1/10 <;>
      simp [applyFrameEffects, afterSparkleGate, h1, h2, h3, h4, h5]

/-- Transform-parameter map used by the C7 witness: noise and sparkles
enabled, lens flare absent. -/
def tpSample : List (String × List (String × ParamValue)) :=
  [("noise", [("intensity", ParamValue.num (PyNum.int 5))]),
   ("sparkles", [("count", ParamValue.num (PyNum.int 4))])]

/-- Witness for C7 at `tpSample` and state 0. -/
theorem video_transform_order_witness :
    processVideoOps tpSample =
      [ClipOp.speed, ClipOp.brightness, ClipOp.contrast, ClipOp.saturation,
        ClipOp.hue, ClipOp.frameEffects].filter (clipOpApplies tpSample) ∧
    (FrameFx.noise ∈ (applyFrameEffects tpSample ⟨0⟩).1 ↔ hasKey tpSample "noise" = true) ∧
    (FrameFx.sparkle ∈ (applyFrameEffects tpSample ⟨0⟩).1 ↔
      hasKey tpSample "sparkles" = true ∧ (pyRandom ⟨0⟩).1 < 3/10) ∧
    (FrameFx.lensFlare ∈ (applyFrameEffects tpSample ⟨0⟩).1 ↔
      hasKey tpSample "lens_flare" = true ∧
        (pyRandom (afterSparkleGate tpSample ⟨0⟩)).1 < 1/10) :=
  video_transform_order tpSample ⟨0⟩

/-! ### C8: output naming and the returned path list -/

theorem photoProcessCopy_ok_shape {Image : Type} (reg : String → Option (EffectFn Image))
    (methods : List MethodConfig) (fmt : String) (flipH : Bool)
    (mirror overlayStage : Image → Image) (saveOk : Bool) (orig : Image)
    (nameHash : ℤ) (stem : String) (i : ℕ) (g g2 : RNG) (np np2 : NpRNG)
    (out : CopyOutput Image)
    (h : photoProcessCopy reg methods fmt flipH mirror overlayStage saveOk orig
      nameHash stem i g np = .ok (out, g2, np2)) :
    out.path = stem ++ "_unique_" ++ toString (i + 1) ++ extMap fmt ∧
    out.written = saveAttempted fmt := by
  rw [photoProcessCopy] at h
  cases ha : applyMethods reg methods
      (if flipH then mirror orig else orig) (pySeed ((i : ℤ) + nameHash)) np with
  | error e => rw [ha] at h; cases h
  | ok p =>
      obtain ⟨img1, g1, np1⟩ := p
      rw [ha] at h
      cases hs : saveAttempted fmt with
      | true =>
          rw [hs] at h
          cases hOk : saveOk with
          | true =>
              rw [hOk] at h
              simp only [eq_self_iff_true, if_true, Except.ok.injEq,
                Prod.mk.injEq] at h
              rw [← h.1]
              exact ⟨rfl, rfl⟩
          | false =>
              rw [hOk] at h
              simp at h
      | false =>
          rw [hs] at h
          simp only [Bool.false_eq_true, if_false, Except.ok.injEq,
            Prod.mk.injEq] at h
          rw [← h.1]
          exact ⟨rfl, rfl⟩

theorem photoUniquifyFrom_mem {Image : Type} (reg : String → Option (EffectFn Image))
    (methods : List MethodConfig) (fmt : String) (flipH : Bool)
    (mirror overlayStage : Image → Image) (saveOk : Bool) (orig : Image)
    (nameHash : ℤ) (stem : String) (k : ℕ) :
    ∀ (i : ℕ) (g : RNG) (np : NpRNG) (out : CopyOutput Image),
      out ∈ (photoUniquifyFrom reg methods fmt flipH mirror overlayStage saveOk
        orig nameHash stem i k g np).1 →
      ∃ (j : ℕ) (g1 g2 : RNG) (np1 np2 : NpRNG), i ≤ j ∧ j < i + k ∧
        photoProcessCopy reg methods fmt flipH mirror overlayStage saveOk orig
          nameHash stem j g1 np1 = .ok (out, g2, np2) := by
  induction k with
  | zero => intro i g np out h; cases h
  | succ n ih =>
      intro i g np out h
      rw [photoUniquifyFrom] at h
      cases hc : photoProcessCopy reg methods fmt flipH mirror overlayStage saveOk
          orig nameHash stem i g np with
      | ok p =>
          rw [hc] at h
          simp only [List.mem_cons] at h
          rcases h with h | h
          · exact ⟨i, g, p.2.1, np, p.2.2, le_refl i, by omega, by rw [hc, h]⟩
          · obtain ⟨j, g1, g2, np1, np2, hj1, hj2, hj3⟩ := ih (i + 1) p.2.1 p.2.2 out h
            exact ⟨j, g1, g2, np1, np2, by omega, by omega, hj3⟩
      | error e =>
          rw [hc] at h
          obtain ⟨j, g1, g2, np1, np2, hj1, hj2, hj3⟩ := ih (i + 1) g np out h
          exact ⟨j, g1, g2, np1, np2, by omega, by omega, hj3⟩

theorem videoProcessCopy_ok_shape (methods : List MethodConfig)
    (stem suffix : String) (i : ℕ) (g g2 : RNG) (out : VideoOutput)
    (h : videoProcessCopy methods stem suffix i g = .ok (out, g2)) :
    out.path = stem ++ "_unique_" ++ toString (i + 1) ++ suffix := by
  rw [videoProcessCopy] at h
  cases ht : videoTransformParams methods g with
  | error e => rw [ht] at h; cases h
  | ok p =>
      rw [ht] at h
      simp only [Except.ok.injEq, Prod.mk.injEq] at h
      rw [← h.1]

theorem videoUniquifyFrom_mem (methods : List MethodConfig)
    (stem suffix : String) (k : ℕ) :
    ∀ (i : ℕ) (g : RNG) (out : VideoOutput),
      out ∈ (videoUniquifyFrom methods stem suffix i k g).1 →
      ∃ (j : ℕ) (g1 g2 : RNG), i ≤ j ∧ j < i + k ∧
        videoProcessCopy methods stem suffix j g1 = .ok (out, g2) := by
  induction k with
  | zero => intro i g out h; cases h
  | succ n ih =>
      intro i g out h
      rw [videoUniquifyFrom] at h
      cases hc : videoProcessCopy methods stem suffix i g with
      | ok p =>
          rw [hc] at h
          simp only [List.mem_cons] at h
          rcases h with h | h
          · exact ⟨i, g, p.2, le_refl i, by omega, by rw [hc, h]⟩
          · obtain ⟨j, g1, g2, hj1, hj2, hj3⟩ := ih (i + 1) p.2 out h
            exact ⟨j, g1, g2, by omega, by omega, hj3⟩
      | error e =>
          rw [hc] at h
          obtain ⟨j, g1, g2, hj1, hj2, hj3⟩ := ih (i + 1) g out h
          exact ⟨j, g1, g2, by omega, by omega, hj3⟩

/-- C8 amended: every entry of a photo uniquify result corresponds to some
successful copy index `i < count` and is named
`{stem}_unique_{i+1}{extMap fileFormat}` (the extension table maps the
three recognised formats and defaults to `.jpg`), and its file was
actually written exactly when the format is one of the three the save
chain handles — for an unrecognised format the path is still returned
although no save was executed.  Every entry of a video uniquify result is
named `{stem}_unique_{i+1}{suffix}` with the input file's own suffix, not
a preset file format. -/
theorem output_naming {Image : Type} (reg : String → Option (EffectFn Image))
    (methods : List MethodConfig) (fmt : String) (flipH : Bool)
    (mirror overlayStage : Image → Image) (saveOk : Bool) (orig : Image)
    (nameHash : ℤ) (stem : String) (count : ℕ) (g : RNG) (np : NpRNG)
    (vmethods : List MethodConfig) (vstem vsuffix : String) (vcount : ℕ) (vg : RNG) :
    (∀ out ∈ (photoUniquify reg methods fmt flipH mirror overlayStage saveOk orig
        nameHash stem count g np).1,
      (∃ i, i < count ∧
        out.path = stem ++ "_unique_" ++ toString (i + 1) ++ extMap fmt) ∧
      out.written = saveAttempted fmt) ∧
    (∀ vout ∈ (videoUniquify vmethods vstem vsuffix vcount vg).1,
      ∃ i, i < vcount ∧
        vout.path = vstem ++ "_unique_" ++ toString (i + 1) ++ vsuffix) := by
  constructor
  · intro out hmem
    obtain ⟨j, g1, g2, np1, np2, _, hj2, hj3⟩ := photoUniquifyFrom_mem reg methods
      fmt flipH mirror overlayStage saveOk orig nameHash stem count 0 g np out hmem
    obtain ⟨hpath, hwritten⟩ := photoProcessCopy_ok_shape reg methods fmt flipH
      mirror overlayStage saveOk orig nameHash stem j g1 g2 np1 np2 out hj3
    exact ⟨⟨j, by omega, hpath⟩, hwritten⟩
  · intro vout hmem
    obtain ⟨j, g1, g2, _, hj2, hj3⟩ := videoUniquifyFrom_mem vmethods vstem vsuffix
      vcount 0 vg vout hmem
    exact ⟨j, by omega, videoProcessCopy_ok_shape vmethods vstem vsuffix j g1 g2 vout hj3⟩

/-- C8 counterexample: with the unrecognised photo format `gif` the save
chain has no branch, so no file is written, yet the path (with the default
`.jpg` extension) is still appended and returned; and a video copy of
input `clip.mov` is named with the input suffix `.mov` — the video path
never consults any preset file format. -/
theorem unwritten_path_returned :
    (photoUniquify regTrace ([] : List MethodConfig) "gif" false id id true
        ([] : List String) 0 "pic" 1 ⟨0⟩ ⟨0⟩).1 =
      [⟨"pic_unique_1.jpg", false, []⟩] ∧
    (videoUniquify [] "clip" ".mov" 1 ⟨0⟩).1 = [⟨"clip_unique_1.mov", []⟩] :=
  ⟨rfl, rfl⟩

/-- Witness for the amended C8 on a concrete run: the single produced
photo copy is named `pic_unique_1.jpg` and was written (format `jpeg`). -/
theorem output_naming_witness :
    ((∃ i, i < 1 ∧
        ("pic_unique_1.jpg" : String) = "pic" ++ "_unique_" ++ toString (i + 1) ++ extMap "jpeg") ∧
      (true : Bool) = saveAttempted "jpeg") ∧
    (∃ i, i < 1 ∧
      ("clip_unique_1.mov" : String) = "clip" ++ "_unique_" ++ toString (i + 1) ++ ".mov") := by
  have h := output_naming regTrace ([] : List MethodConfig) "jpeg" false id id true
    ([] : List String) 0 "pic" 1 ⟨0⟩ ⟨0⟩ [] "clip" ".mov" 1 ⟨0⟩
  exact ⟨h.1 ⟨"pic_unique_1.jpg", true, []⟩ (by rw [show (photoUniquify regTrace
      ([] : List MethodConfig) "jpeg" false id id true ([] : List String) 0 "pic" 1
      ⟨0⟩ ⟨0⟩).1 = [⟨"pic_unique_1.jpg", true, []⟩] from rfl]; exact List.mem_singleton.mpr rfl),
    h.2 ⟨"clip_unique_1.mov", []⟩ (by rw [show (videoUniquify [] "clip" ".mov" 1
      ⟨0⟩).1 = [⟨"clip_unique_1.mov", []⟩] from rfl]; exact List.mem_singleton.mpr rfl)⟩

/-! ### C1: determinism across independent calls -/

theorem regTrace_npTransparent (n : String) (f : EffectFn (List String))
    (h : regTrace n = some f) : npTransparent f := by
  unfold regTrace at h
  split at h
  · obtain rfl := Option.some.injEq .. ▸ h
    intro img ps g np np'
    exact Or.inl ⟨n :: img, g, rfl, rfl⟩
  · cases h

theorem applyMethods_np_agree {Image : Type} (reg : String → Option (EffectFn Image))
    (hreg : ∀ (n : String) (f : EffectFn Image), reg n = some f → npTransparent f)
    (methods : List MethodConfig) :
    ∀ (img : Image) (g : RNG) (np np' : NpRNG),
      (∃ (i1 : Image) (g1 : RNG),
        applyMethods reg methods img g np = .ok (i1, g1, np) ∧
        applyMethods reg methods img g np' = .ok (i1, g1, np')) ∨
      (∃ e, applyMethods reg methods img g np = .error e ∧
        applyMethods reg methods img g np' = .error e) := by
  induction methods with
  | nil => intro img g np np'; exact Or.inl ⟨img, g, rfl, rfl⟩
  | cons mc rest ih =>
      intro img g np np'
      simp only [applyMethods]
      cases hen : mc.enabled with
      | false =>
          simp only [Bool.false_eq_true, if_false]
          exact ih img g np np'
      | true =>
          simp only [if_true]
          cases hrn : reg mc.name with
          | none => exact ih img g np np'
          | some f =>
              cases hsp : samplePairs mc.params g with
              | error e => exact Or.inr ⟨e, rfl, rfl⟩
              | ok pg =>
                  obtain ⟨ps, g1⟩ := pg
                  dsimp only
                  rcases hreg mc.name f hrn img ps g1 np np' with
                    ⟨i1, g2, h1, h2⟩ | ⟨e, h1, h2⟩
                  · rw [h1, h2]
                    exact ih i1 g2 np np'
                  · rw [h1, h2]
                    exact ih img g1 np np'

theorem photoProcessCopy_np_agree {Image : Type} (reg : String → Option (EffectFn Image))
    (hreg : ∀ (n : String) (f : EffectFn Image), reg n = some f → npTransparent f)
    (methods : List MethodConfig) (fmt : String) (flipH : Bool)
    (mirror overlayStage : Image → Image) (saveOk : Bool) (orig : Image)
    (nameHash : ℤ) (stem : String) (i : ℕ) (gA gB : RNG) (np np' : NpRNG) :
    (∃ (o : CopyOutput Image) (g1 : RNG),
      photoProcessCopy reg methods fmt flipH mirror overlayStage saveOk orig
        nameHash stem i gA np = .ok (o, g1, np) ∧
      photoProcessCopy reg methods fmt flipH mirror overlayStage saveOk orig
        nameHash stem i gB np' = .ok (o, g1, np')) ∨
    (∃ e,
      photoProcessCopy reg methods fmt flipH mirror overlayStage saveOk orig
        nameHash stem i gA np = .error e ∧
      photoProcessCopy reg methods fmt flipH mirror overlayStage saveOk orig
        nameHash stem i gB np' = .error e) := by
  rcases applyMethods_np_agree reg hreg methods
      (if flipH then mirror orig else orig) (pySeed ((i : ℤ) + nameHash)) np np' with
    ⟨i1, g1, h1, h2⟩ | ⟨e, h1, h2⟩
  · cases hs : saveAttempted fmt with
    | true =>
        cases hOk : saveOk with
        | true =>
            refine Or.inl ⟨⟨stem ++ "_unique_" ++ toString (i + 1) ++ extMap fmt,
              true, overlayStage i1⟩, g1, ?_, ?_⟩ <;>
              simp [photoProcessCopy, h1, h2, hs, hOk]
        | false =>
            refine Or.inr ⟨"save failed", ?_, ?_⟩ <;>
              simp [photoProcessCopy, h1, h2, hs, hOk]
    | false =>
        refine Or.inl ⟨⟨stem ++ "_unique_" ++ toString (i + 1) ++ extMap fmt,
          false, overlayStage i1⟩, g1, ?_, ?_⟩ <;>
          simp [photoProcessCopy, h1, h2, hs]
  · refine Or.inr ⟨e, ?_, ?_⟩ <;> simp [photoProcessCopy, h1, h2]

theorem photoUniquifyFrom_generator_blind {Image : Type}
    (reg : String → Option (EffectFn Image))
    (hreg : ∀ (n : String) (f : EffectFn Image), reg n = some f → npTransparent f)
    (methods : List MethodConfig) (fmt : String) (flipH : Bool)
    (mirror overlayStage : Image → Image) (saveOk : Bool) (orig : Image)
    (nameHash : ℤ) (stem : String) :
    ∀ (k i : ℕ) (gA gB : RNG) (np np' : NpRNG),
      (photoUniquifyFrom reg methods fmt flipH mirror overlayStage saveOk orig
        nameHash stem i k gA np).1 =
      (photoUniquifyFrom reg methods fmt flipH mirror overlayStage saveOk orig
        nameHash stem i k gB np').1 := by
  intro k
  induction k with
  | zero => intro i gA gB np np'; rfl
  | succ n ih =>
      intro i gA gB np np'
      rcases photoProcessCopy_np_agree reg hreg methods fmt flipH mirror
          overlayStage saveOk orig nameHash stem i gA gB np np' with
        ⟨o, g1, h1, h2⟩ | ⟨e, h1, h2⟩
      · simp only [photoUniquifyFrom, h1, h2]
        exact congrArg (List.cons o) (ih (i + 1) g1 g1 np np')
      · simp only [photoUniquifyFrom, h1, h2]
        exact ih (i + 1) gA gB np np'

/-- With the noise effect drawing from numpy's global generator — as the
real `add_noise` does — two photo runs entering with different numpy
states produce different copies even though the `random` module is
reseeded identically per copy. -/
theorem photoNoiseNp_ambient_divergence :
    (photoUniquify regNoiseNp [mcNoiseRange] "jpeg" false id id true
        ([] : List ℕ) 0 "img" 1 ⟨0⟩ ⟨0⟩).1 ≠
      (photoUniquify regNoiseNp [mcNoiseRange] "jpeg" false id id true
        ([] : List ℕ) 0 "img" 1 ⟨0⟩ ⟨1⟩).1 := by
  decide

/-- The default video preset's `speed` method, a float range. -/
def mcSpeed : MethodConfig :=
  ⟨"speed", true,
    [("factor", ParamValue.range2 (PyNum.float (49/50)) (PyNum.float (51/50)))]⟩

/-- With the video `speed` effect enabled, two video runs entering with
different `random`-module states sample different speed factors — the
video path never seeds. -/
theorem videoSpeed_ambient_divergence :
    videoProcessCopy [mcSpeed] "clip" ".mp4" 0 ⟨0⟩ ≠
      videoProcessCopy [mcSpeed] "clip" ".mp4" 0 ⟨1⟩ := by
  intro hcontra
  have h0 : videoProcessCopy [mcSpeed] "clip" ".mp4" 0 ⟨0⟩ =
      .ok (⟨"clip_unique_1.mp4",
        [("speed", [("factor", ParamValue.num (PyNum.float
          ((49/50) + ((51/50) - (49/50)) * ((12345 : ℚ) / 2147483648))))])]⟩,
        ⟨12345⟩) := rfl
  have h1 : videoProcessCopy [mcSpeed] "clip" ".mp4" 0 ⟨1⟩ =
      .ok (⟨"clip_unique_1.mp4",
        [("speed", [("factor", ParamValue.num (PyNum.float
          ((49/50) + ((51/50) - (49/50)) * ((1103527590 : ℚ) / 2147483648))))])]⟩,
        ⟨1103527590⟩) := rfl
  rw [h0, h1] at hcontra
  simp only [Except.ok.injEq, Prod.mk.injEq] at hcontra
  exact absurd hcontra.2 (by decide)

/-- C1 amended: `PhotoUniquifier.uniquify` reseeds the `random` module
from `copyIndex + hash(inputName)` before every copy, so whenever every
enabled effect is numpy-transparent (draws only from the reseeded `random`
module, never from `np.random`) the produced copy list is independent of
the ambient states of both generators — two independent calls with the
same input identity, preset and count return identical outputs.  That
proviso is real: `add_noise` draws its per-pixel noise from numpy's global
generator, which nothing ever seeds, so with such an effect enabled two
independent photo calls can differ; and `VideoUniquifier` never seeds the
`random` module at all, so its sampled parameters depend on the ambient
state. -/
theorem photo_conditional_determinism_video_not {Image : Type}
    (reg : String → Option (EffectFn Image))
    (hreg : ∀ (n : String) (f : EffectFn Image), reg n = some f → npTransparent f)
    (methods : List MethodConfig) (fmt : String) (flipH : Bool)
    (mirror overlayStage : Image → Image) (saveOk : Bool) (orig : Image)
    (nameHash : ℤ) (stem : String) (count : ℕ) (gA gB : RNG) (np np' : NpRNG) :
    (photoUniquify reg methods fmt flipH mirror overlayStage saveOk orig
        nameHash stem count gA np).1 =
      (photoUniquify reg methods fmt flipH mirror overlayStage saveOk orig
        nameHash stem count gB np').1 ∧
    (∃ (preg : String → Option (EffectFn (List ℕ))) (ms : List MethodConfig)
        (st : String) (npA npB : NpRNG),
      (photoUniquify preg ms "jpeg" false id id true ([] : List ℕ) 0 st 1
          ⟨0⟩ npA).1 ≠
        (photoUniquify preg ms "jpeg" false id id true ([] : List ℕ) 0 st 1
          ⟨0⟩ npB).1) ∧
    (∃ (ms : List MethodConfig) (st sf : String) (i : ℕ) (h1 h2 : RNG),
      videoProcessCopy ms st sf i h1 ≠ videoProcessCopy ms st sf i h2) :=
  ⟨photoUniquifyFrom_generator_blind reg hreg methods fmt flipH mirror
      overlayStage saveOk orig nameHash stem count 0 gA gB np np',
    ⟨regNoiseNp, [mcNoiseRange], "img", ⟨0⟩, ⟨1⟩, photoNoiseNp_ambient_divergence⟩,
    ⟨[mcSpeed], "clip", ".mp4", 0, ⟨0⟩, ⟨1⟩, videoSpeed_ambient_divergence⟩⟩

/-- Witness for the amended C1: with the numpy-transparent trace registry,
two photo runs entering with different states of both generators return
the same copy list. -/
theorem photo_conditional_determinism_video_not_witness :
    (photoUniquify regTrace [mcNoiseRange] "jpeg" false id id true
        ([] : List String) 0 "img" 2 ⟨5⟩ ⟨7⟩).1 =
      (photoUniquify regTrace [mcNoiseRange] "jpeg" false id id true
        ([] : List String) 0 "img" 2 ⟨99⟩ ⟨42⟩).1 ∧
    (∃ (preg : String → Option (EffectFn (List ℕ))) (ms : List MethodConfig)
        (st : String) (npA npB : NpRNG),
      (photoUniquify preg ms "jpeg" false id id true ([] : List ℕ) 0 st 1
          ⟨0⟩ npA).1 ≠
        (photoUniquify preg ms "jpeg" false id id true ([] : List ℕ) 0 st 1
          ⟨0⟩ npB).1) ∧
    (∃ (ms : List MethodConfig) (st sf : String) (i : ℕ) (h1 h2 : RNG),
      videoProcessCopy ms st sf i h1 ≠ videoProcessCopy ms st sf i h2) :=
  photo_conditional_determinism_video_not regTrace regTrace_npTransparent
    [mcNoiseRange] "jpeg" false id id true ([] : List String) 0 "img" 2
    ⟨5⟩ ⟨99⟩ ⟨7⟩ ⟨42⟩

/-- C1 counterexample: with noise drawing from numpy's never-seeded global
generator (as `add_noise` does), two photo calls entering with different
numpy states produce different copies even for the same input name, copy
index and preset; and two video calls entering with different
`random`-module states sample different speed factors.  Neither path
yields byte-identical output across independent calls. -/
theorem copy_output_depends_on_ambient_generators :
    (photoUniquify regNoiseNp [mcNoiseRange] "jpeg" false id id true
        ([] : List ℕ) 0 "img" 1 ⟨0⟩ ⟨0⟩).1 ≠
      (photoUniquify regNoiseNp [mcNoiseRange] "jpeg" false id id true
        ([] : List ℕ) 0 "img" 1 ⟨0⟩ ⟨1⟩).1 ∧
    videoProcessCopy [mcSpeed] "clip" ".mp4" 0 ⟨0⟩ ≠
      videoProcessCopy [mcSpeed] "clip" ".mp4" 0 ⟨1⟩ :=
  ⟨photoNoiseNp_ambient_divergence, videoSpeed_ambient_divergence⟩
